import Mathlib

/-!
# Verification of `autograde/__main__.py`

A shallow embedding of the `test` and `summary` subcommands of the
`autograde` command-line tool, together with proofs of the specified
properties.

* The `test` subcommand resolves a notebook path (a single file or a
  directory searched recursively for `*.ipynb` files, excluding
  `.ipynb_checkpoints`), runs one container per notebook, and returns
  `reduce(max, map(run, notebooks))` — the maximum exit code.
* The `summary` subcommand scans for `results_*.tar.xz` archives,
  extracts `test_results.json` from each (skipping archives without it),
  asserts a single distinct `score_max` across all parsed records,
  flattens per-team-member rows, sorts by score, flags duplicate
  submissions, writes the CSV, and plots a histogram over the scores of
  the first-occurrence row per student.

Paths are modelled as lists of path components (Python `Path.parts`),
container runs as an exit-code function supplied as a parameter, archives
as a name plus an optional embedded JSON record, and scores as rationals.
A Python uncaught exception (`AssertionError` from the consistency check,
`TypeError` from `reduce` on an empty sequence) is modelled as the error
case of `Except` / `Option`: no output artifact is produced on that path.
-/

namespace Autograde

/-- One entry of the `team_members` list of a `test_results.json` record. -/
structure TeamMember where
  student_id : String
  last_name : String
  first_name : String
deriving DecidableEq, Repr

/-- The `summary` object of a `test_results.json` record. -/
structure ResultSummary where
  score : ℚ
  score_max : ℚ
deriving DecidableEq, Repr

/-- The content of a `test_results.json` member of a result archive. -/
structure TestResultsJson where
  summary : ResultSummary
  team_members : List TeamMember
deriving DecidableEq, Repr

/-- A result archive matching `results_*.tar.xz`: its file name and, when the
archive contains the member `test_results.json`, that member's parsed
content (`none` models the `KeyError` path: the member is missing). -/
structure Archive where
  name : String
  testResults : Option TestResultsJson
deriving DecidableEq, Repr

/-- A successfully parsed record: the JSON content with `result_file` set to
the archive's file name (`r['result_file'] = path.name`). -/
structure ResultRecord where
  summary : ResultSummary
  team_members : List TeamMember
  result_file : String
deriving DecidableEq, Repr

/-- The extraction loop of `summary`: each archive either yields a record or
is skipped with a warning when `test_results.json` is missing. -/
def extractResults (archives : List Archive) : List ResultRecord :=
  archives.filterMap fun a =>
    a.testResults.map fun j =>
      { summary := j.summary, team_members := j.team_members,
        result_file := a.name }

/-- One row of `summary.csv` (before the `multiple_submissions` column is
added): `student_id, last_name, first_name, score, max_score, result_file`. -/
structure Row where
  student_id : String
  last_name : String
  first_name : String
  score : ℚ
  max_score : ℚ
  result_file : String
deriving DecidableEq, Repr

/-- `row_factory`: one row per (record × team member), in order. -/
def rowFactory (results : List ResultRecord) (max_score : ℚ) : List Row :=
  results.flatMap fun r =>
    r.team_members.map fun member =>
      { student_id := member.student_id,
        last_name := member.last_name,
        first_name := member.first_name,
        score := r.summary.score,
        max_score := max_score,
        result_file := r.result_file }

/-- The sort order of `df.sort_values(by='score')`. -/
def rowLE (a b : Row) : Prop :=
  a.score ≤ b.score

instance : DecidableRel rowLE := fun _ _ => inferInstanceAs (Decidable (_ ≤ _))

instance : IsTotal Row rowLE := ⟨fun a b => le_total a.score b.score⟩

instance : IsTrans Row rowLE := ⟨fun _ _ _ h h' => le_trans h h'⟩

/-- `df.sort_values(by='score')`: sort the rows by ascending score. -/
def sortByScore (rows : List Row) : List Row :=
  rows.insertionSort rowLE

/-- `df['student_id'].duplicated(keep=False)`: attach to each row the flag
that its `student_id` occurs in more than one row of the batch. -/
def addMultipleSubmissions (rows : List Row) : List (Row × Bool) :=
  rows.map fun r =>
    (r, decide (1 < rows.countP fun q => q.student_id = r.student_id))

/-- `~df['student_id'].duplicated(keep='first')` applied down the list: keep
a row only when its `student_id` was not seen in an earlier kept-or-skipped
row. `seen` accumulates the student ids encountered so far. -/
def keepFirstAux (seen : List String) : List Row → List Row
  | [] => []
  | r :: rs =>
    if r.student_id ∈ seen then keepFirstAux seen rs
    else r :: keepFirstAux (r.student_id :: seen) rs

/-- The first-occurrence-per-student rows used for the score histogram. -/
def keepFirst (rows : List Row) : List Row :=
  keepFirstAux [] rows

/-- The observable output of a successful `summary` run: the rows of
`summary.csv` with their `multiple_submissions` flag, in file order, and the
rows whose scores feed the `score_distribution.png` histogram. -/
structure SummaryOutput where
  csvRows : List (Row × Bool)
  histRows : List Row
deriving DecidableEq, Repr

/-- `summary` applied to the already-extracted records: the consistency check
`assert len({score_max}) == 1` aborts before any output is written, otherwise
the rows are built, sorted, flagged and returned. -/
def summaryOfResults (results : List ResultRecord) : Except String SummaryOutput :=
  let max_scores := (results.map fun r => r.summary.score_max).dedup
  if max_scores.length = 1 then
    let max_score := max_scores.headI
    let rows := sortByScore (rowFactory results max_score)
    Except.ok { csvRows := addMultipleSubmissions rows, histRows := keepFirst rows }
  else Except.error "found different max scores in results"

/-- The `summary` subcommand on the archives found under the scanned
directory. `Except.error` models the `AssertionError`: the run aborts before
`summary.csv` or `score_distribution.png` is written. -/
def summary (archives : List Archive) : Except String SummaryOutput :=
  summaryOfResults (extractResults archives)

/-! ## The `test` subcommand -/

/-- A filesystem path as its components (Python `Path.parts`). -/
abbrev FsPath := List String

/-- Whether a file name matches the glob pattern `*.ipynb`, i.e. ends with
the extension `.ipynb`. -/
def isIpynbName (name : String) : Bool :=
  ".ipynb".data.isSuffixOf name.data

/-- The notebook argument of the `test` subcommand: either a single regular
file, or a directory given by the recursive listing of the file paths under
it (each path carried with its full components, as `Path.rglob` yields). -/
inductive NotebookArg where
  | file (p : FsPath)
  | dir (files : List FsPath)
deriving DecidableEq, Repr

/-- Notebook discovery: a single file is used as is; for a directory,
`rglob('*.ipynb')` filtered by `'.ipynb_checkpoints' not in p.parts`. -/
def notebooksOf : NotebookArg → List FsPath
  | .file p => [p]
  | .dir files =>
    (files.filter fun p => isIpynbName (p.getLastD "")).filter
      fun p => decide (".ipynb_checkpoints" ∉ p)

/-- The `test` subcommand: one container run per discovered notebook,
aggregated by `reduce(max, map(run, notebooks))`. `runExit` gives the exit
code of the container run on a notebook; `none` models the `TypeError`
raised by `reduce` on an empty sequence with no initial value. -/
def test (runExit : FsPath → ℕ) (arg : NotebookArg) : Option ℕ :=
  match notebooksOf arg with
  | [] => none
  | n :: ns => some (ns.foldl (fun acc p => max acc (runExit p)) (runExit n))

/-! ## Helper lemmas -/

/-- A nonempty list all of whose elements coincide deduplicates to a
singleton. -/
theorem dedup_eq_singleton_of_all_eq {α : Type*} [DecidableEq α] (l : List α)
    (hne : l ≠ []) (h : ∀ a ∈ l, ∀ b ∈ l, a = b) : ∃ m, l.dedup = [m] := by
  cases hd : l.dedup with
  | nil => exact absurd ((List.dedup_eq_nil l).mp hd) hne
  | cons a t =>
    cases t with
    | nil => exact ⟨a, rfl⟩
    | cons b t' =>
      have hnd : l.dedup.Nodup := l.nodup_dedup
      rw [hd] at hnd
      have hab : a ≠ b := by
        have := List.rel_of_pairwise_cons hnd (List.mem_cons_self b t')
        exact this
      have ha : a ∈ l := List.mem_dedup.mp (hd ▸ List.mem_cons_self a (b :: t'))
      have hb : b ∈ l := List.mem_dedup.mp
        (hd ▸ List.mem_cons_of_mem a (List.mem_cons_self b t'))
      exact absurd (h a ha b hb) hab

/-- The rows produced by `row_factory` number one per team member. -/
theorem length_rowFactory (results : List ResultRecord) (m : ℚ) :
    (rowFactory results m).length =
      (results.map fun r => r.team_members.length).sum := by
  simp only [rowFactory, List.flatMap, List.length_flatten, List.map_map]
  congr 1
  refine List.map_congr_left fun r _ => ?_
  simp

/-- Attaching the `multiple_submissions` flag leaves the underlying rows
unchanged. -/
theorem map_fst_addMultipleSubmissions (rows : List Row) :
    (addMultipleSubmissions rows).map Prod.fst = rows := by
  simp only [addMultipleSubmissions, List.map_map]
  exact List.map_id'' (fun _ => rfl) rows

/-- Inversion of a successful `summary` run: a single distinct `score_max`
was found, and the output consists of the flagged sorted rows and the
first-occurrence rows. -/
theorem summary_eq_ok (archives : List Archive) (out : SummaryOutput)
    (h : summary archives = Except.ok out) :
    ∃ m, ((extractResults archives).map fun r => r.summary.score_max).dedup = [m] ∧
      out.csvRows =
        addMultipleSubmissions (sortByScore (rowFactory (extractResults archives) m)) ∧
      out.histRows = keepFirst (sortByScore (rowFactory (extractResults archives) m)) := by
  unfold summary summaryOfResults at h
  by_cases hlen :
      ((extractResults archives).map fun r => r.summary.score_max).dedup.length = 1
  · obtain ⟨m, hm⟩ := List.length_eq_one.mp hlen
    rw [if_pos hlen] at h
    have hout := Except.ok.inj h
    rw [hm] at hout
    exact ⟨m, hm, hout ▸ rfl, hout ▸ rfl⟩
  · rw [if_neg hlen] at h
    cases h

/-! ## Claims about the `summary` subcommand -/

/-- C1: if two successfully parsed records disagree on `summary.score_max`,
the `summary` operation aborts with the consistency-check error before
writing `summary.csv` or `score_distribution.png`: its result is the error,
not a `SummaryOutput`. -/
theorem summary_aborts_on_differing_score_max (archives : List Archive)
    (r₁ r₂ : ResultRecord) (h₁ : r₁ ∈ extractResults archives)
    (h₂ : r₂ ∈ extractResults archives)
    (hne : r₁.summary.score_max ≠ r₂.summary.score_max) :
    summary archives = Except.error "found different max scores in results" := by
  have m₁ : r₁.summary.score_max ∈
      ((extractResults archives).map fun r => r.summary.score_max).dedup :=
    List.mem_dedup.mpr (List.mem_map_of_mem _ h₁)
  have m₂ : r₂.summary.score_max ∈
      ((extractResults archives).map fun r => r.summary.score_max).dedup :=
    List.mem_dedup.mpr (List.mem_map_of_mem _ h₂)
  unfold summary summaryOfResults
  rw [if_neg]
  intro hlen
  obtain ⟨m, hm⟩ := List.length_eq_one.mp hlen
  rw [hm, List.mem_singleton] at m₁ m₂
  exact absurd (m₁.trans m₂.symm) hne

/-- C1 witness: two concrete archives with max scores 10 and 12. -/
theorem summary_aborts_on_differing_score_max_witness :
    summary
      [⟨"results_a.tar.xz", some ⟨⟨7, 10⟩, [⟨"alice", "An", "Al"⟩]⟩⟩,
       ⟨"results_b.tar.xz", some ⟨⟨9, 12⟩, [⟨"bob", "Bn", "Bo"⟩]⟩⟩] =
      Except.error "found different max scores in results" :=
  summary_aborts_on_differing_score_max _
    ⟨⟨7, 10⟩, [⟨"alice", "An", "Al"⟩], "results_a.tar.xz"⟩
    ⟨⟨9, 12⟩, [⟨"bob", "Bn", "Bo"⟩], "results_b.tar.xz"⟩
    (by decide) (by decide) (by decide)

/-- C8: with zero successfully parsed records the set of distinct
`score_max` values is empty, so the consistency check fails and `summary`
aborts with the assertion error instead of writing an empty `summary.csv`. -/
theorem summary_aborts_on_no_results (archives : List Archive)
    (h : extractResults archives = []) :
    summary archives = Except.error "found different max scores in results" := by
  unfold summary summaryOfResults
  rw [h]
  rfl

/-- C8 witness: one matching archive lacking `test_results.json`. -/
theorem summary_aborts_on_no_results_witness :
    summary [⟨"results_c.tar.xz", none⟩] =
      Except.error "found different max scores in results" :=
  summary_aborts_on_no_results [⟨"results_c.tar.xz", none⟩] rfl

/-- C3: an archive without the `test_results.json` member is skipped — the
summary over any archive set containing it equals the summary over the set
with it removed, so it contributes no rows and the remaining archives are
still processed. (The warning written to the log is outside the model.) -/
theorem summary_skips_archive_without_member (before after : List Archive)
    (a : Archive) (h : a.testResults = none) :
    summary (before ++ a :: after) = summary (before ++ after) := by
  unfold summary
  congr 1
  unfold extractResults
  rw [List.filterMap_append, List.filterMap_append, List.filterMap_cons, h]
  rfl

/-- C3 witness: a memberless archive between two valid ones. -/
theorem summary_skips_archive_without_member_witness :
    summary
      [⟨"results_a.tar.xz", some ⟨⟨7, 10⟩, [⟨"alice", "An", "Al"⟩]⟩⟩,
       ⟨"results_c.tar.xz", none⟩,
       ⟨"results_b.tar.xz", some ⟨⟨9, 10⟩, [⟨"bob", "Bn", "Bo"⟩]⟩⟩] =
      summary
        [⟨"results_a.tar.xz", some ⟨⟨7, 10⟩, [⟨"alice", "An", "Al"⟩]⟩⟩,
         ⟨"results_b.tar.xz", some ⟨⟨9, 10⟩, [⟨"bob", "Bn", "Bo"⟩]⟩⟩] :=
  summary_skips_archive_without_member
    [⟨"results_a.tar.xz", some ⟨⟨7, 10⟩, [⟨"alice", "An", "Al"⟩]⟩⟩]
    [⟨"results_b.tar.xz", some ⟨⟨9, 10⟩, [⟨"bob", "Bn", "Bo"⟩]⟩⟩]
    ⟨"results_c.tar.xz", none⟩ rfl

/-- C2: when all successfully parsed records share one `summary.score_max`,
the summary succeeds and its row count is the total number of team members
across the parsed records. -/
theorem summary_row_count (archives : List Archive)
    (hne : extractResults archives ≠ [])
    (hconst : ∀ r₁ ∈ extractResults archives, ∀ r₂ ∈ extractResults archives,
      r₁.summary.score_max = r₂.summary.score_max) :
    ∃ out, summary archives = Except.ok out ∧
      out.csvRows.length =
        ((extractResults archives).map fun r => r.team_members.length).sum := by
  obtain ⟨m, hm⟩ := dedup_eq_singleton_of_all_eq
    ((extractResults archives).map fun r => r.summary.score_max)
    (by simpa using hne)
    (by
      intro a ha b hb
      obtain ⟨ra, hra, rfl⟩ := List.mem_map.mp ha
      obtain ⟨rb, hrb, rfl⟩ := List.mem_map.mp hb
      exact hconst ra hra rb hrb)
  have hlen :
      ((extractResults archives).map fun r => r.summary.score_max).dedup.length = 1 := by
    rw [hm]
    rfl
  have hok : summary archives = Except.ok
      { csvRows := addMultipleSubmissions (sortByScore (rowFactory (extractResults archives) m)),
        histRows := keepFirst (sortByScore (rowFactory (extractResults archives) m)) } := by
    unfold summary summaryOfResults
    rw [if_pos hlen, hm]
    rfl
  refine ⟨_, hok, ?_⟩
  simp only [addMultipleSubmissions, List.length_map, sortByScore,
    List.length_insertionSort, length_rowFactory]

/-- C2 witness: two archives with `score_max = 10` and 2 + 1 team members. -/
theorem summary_row_count_witness :
    ∃ out,
      summary
        [⟨"results_a.tar.xz", some ⟨⟨7, 10⟩, [⟨"alice", "An", "Al"⟩, ⟨"bob", "Bn", "Bo"⟩]⟩⟩,
         ⟨"results_b.tar.xz", some ⟨⟨9, 10⟩, [⟨"carol", "Cn", "Ca"⟩]⟩⟩] = Except.ok out ∧
      out.csvRows.length =
        ((extractResults
          [⟨"results_a.tar.xz", some ⟨⟨7, 10⟩, [⟨"alice", "An", "Al"⟩, ⟨"bob", "Bn", "Bo"⟩]⟩⟩,
           ⟨"results_b.tar.xz", some ⟨⟨9, 10⟩, [⟨"carol", "Cn", "Ca"⟩]⟩⟩]).map
            fun r => r.team_members.length).sum :=
  summary_row_count _ (by decide) (by decide)

/-- C4: in a successful summary, a row's `multiple_submissions` flag is true
exactly when its `student_id` occurs in more than one row of the batch. -/
theorem multiple_submissions_iff_duplicate (archives : List Archive)
    (out : SummaryOutput) (h : summary archives = Except.ok out)
    (r : Row) (b : Bool) (hmem : (r, b) ∈ out.csvRows) :
    b = true ↔ 1 < out.csvRows.countP fun q => q.1.student_id = r.student_id := by
  obtain ⟨m, _, hcsv, _⟩ := summary_eq_ok archives out h
  rw [hcsv] at hmem ⊢
  have hcount :
      (addMultipleSubmissions (sortByScore (rowFactory (extractResults archives) m))).countP
          (fun q => q.1.student_id = r.student_id) =
        (sortByScore (rowFactory (extractResults archives) m)).countP
          (fun q => q.student_id = r.student_id) := by
    unfold addMultipleSubmissions
    rw [List.countP_map]
    rfl
  rw [hcount]
  obtain ⟨r', hr', heq⟩ := List.mem_map.mp hmem
  obtain ⟨h₁, h₂⟩ := Prod.mk.injEq .. |>.mp heq
  subst h₁
  rw [← h₂]
  simp

/-- C4 witness: the same student in two archives — both rows flagged. -/
theorem multiple_submissions_iff_duplicate_witness :
    true = true ↔ 1 < List.countP (fun q => q.1.student_id = "alice")
      [((⟨"alice", "An", "Al", 7, 10, "results_b.tar.xz"⟩ : Row), true),
       ((⟨"alice", "An", "Al", 9, 10, "results_a.tar.xz"⟩ : Row), true)] :=
  multiple_submissions_iff_duplicate
    [⟨"results_a.tar.xz", some ⟨⟨9, 10⟩, [⟨"alice", "An", "Al"⟩]⟩⟩,
     ⟨"results_b.tar.xz", some ⟨⟨7, 10⟩, [⟨"alice", "An", "Al"⟩]⟩⟩]
    ⟨[(⟨"alice", "An", "Al", 7, 10, "results_b.tar.xz"⟩, true),
      (⟨"alice", "An", "Al", 9, 10, "results_a.tar.xz"⟩, true)],
     [⟨"alice", "An", "Al", 7, 10, "results_b.tar.xz"⟩]⟩
    (by rfl) ⟨"alice", "An", "Al", 7, 10, "results_b.tar.xz"⟩ true (by decide)

/-- C5: the rows of `summary.csv` appear in ascending order of score: every
consecutive pair is ordered by `score ≤ score`. -/
theorem csv_rows_sorted_by_score (archives : List Archive) (out : SummaryOutput)
    (h : summary archives = Except.ok out) :
    out.csvRows.Chain' fun a b => a.1.score ≤ b.1.score := by
  obtain ⟨m, _, hcsv, _⟩ := summary_eq_ok archives out h
  rw [hcsv]
  apply List.Pairwise.chain'
  unfold addMultipleSubmissions
  rw [List.pairwise_map]
  exact List.sorted_insertionSort rowLE _

/-- C5 witness: scores 7 and 9 come out in that order. -/
theorem csv_rows_sorted_by_score_witness :
    List.Chain' (fun a b => a.1.score ≤ b.1.score)
      [((⟨"alice", "An", "Al", 7, 10, "results_a.tar.xz"⟩ : Row), false),
       ((⟨"bob", "Bn", "Bo", 9, 10, "results_b.tar.xz"⟩ : Row), false)] :=
  csv_rows_sorted_by_score
    [⟨"results_a.tar.xz", some ⟨⟨7, 10⟩, [⟨"alice", "An", "Al"⟩]⟩⟩,
     ⟨"results_b.tar.xz", some ⟨⟨9, 10⟩, [⟨"bob", "Bn", "Bo"⟩]⟩⟩]
    ⟨[(⟨"alice", "An", "Al", 7, 10, "results_a.tar.xz"⟩, false),
      (⟨"bob", "Bn", "Bo", 9, 10, "results_b.tar.xz"⟩, false)],
     [⟨"alice", "An", "Al", 7, 10, "results_a.tar.xz"⟩,
      ⟨"bob", "Bn", "Bo", 9, 10, "results_b.tar.xz"⟩]⟩
    (by rfl)

/-- A row kept by the first-occurrence filter has an id outside `seen`. -/
theorem keepFirstAux_id_not_seen (seen : List String) (l : List Row) (r : Row)
    (hr : r ∈ keepFirstAux seen l) : r.student_id ∉ seen := by
  induction l generalizing seen with
  | nil => cases hr
  | cons a t ih =>
    by_cases ha : a.student_id ∈ seen
    · simp only [keepFirstAux, if_pos ha] at hr
      exact ih seen hr
    · simp only [keepFirstAux, if_neg ha] at hr
      rcases List.mem_cons.mp hr with rfl | hr'
      · exact ha
      · intro hc
        exact ih _ hr' (List.mem_cons_of_mem _ hc)

/-- The first-occurrence filter keeps a sublist of the rows. -/
theorem keepFirstAux_subset (seen : List String) (l : List Row) (r : Row)
    (hr : r ∈ keepFirstAux seen l) : r ∈ l := by
  induction l generalizing seen with
  | nil => cases hr
  | cons a t ih =>
    by_cases ha : a.student_id ∈ seen
    · simp only [keepFirstAux, if_pos ha] at hr
      exact List.mem_cons_of_mem _ (ih seen hr)
    · simp only [keepFirstAux, if_neg ha] at hr
      rcases List.mem_cons.mp hr with rfl | hr'
      · exact List.mem_cons_self _ _
      · exact List.mem_cons_of_mem _ (ih _ hr')

/-- Every student id present among the rows and not yet seen still has a
representative row after the first-occurrence filter. -/
theorem keepFirstAux_exists (seen : List String) (l : List Row) (s : String)
    (hs : s ∉ seen) (hex : ∃ q ∈ l, q.student_id = s) :
    ∃ r ∈ keepFirstAux seen l, r.student_id = s := by
  induction l generalizing seen with
  | nil => obtain ⟨q, hq, _⟩ := hex; cases hq
  | cons a t ih =>
    by_cases ha : a.student_id ∈ seen
    · simp only [keepFirstAux, if_pos ha]
      apply ih seen hs
      obtain ⟨q, hq, hqs⟩ := hex
      rcases List.mem_cons.mp hq with rfl | hq'
      · exact absurd (hqs ▸ ha) hs
      · exact ⟨q, hq', hqs⟩
    · simp only [keepFirstAux, if_neg ha]
      by_cases has : a.student_id = s
      · exact ⟨a, List.mem_cons_self _ _, has⟩
      · obtain ⟨q, hq, hqs⟩ := hex
        rcases List.mem_cons.mp hq with rfl | hq'
        · exact absurd hqs has
        · obtain ⟨r, hr, hrs⟩ := ih (a.student_id :: seen)
            (by
              intro hc
              rcases List.mem_cons.mp hc with hc' | hc'
              · exact has hc'.symm
              · exact hs hc')
            ⟨q, hq', hqs⟩
          exact ⟨r, List.mem_cons_of_mem _ hr, hrs⟩

/-- On rows sorted by ascending score, a row kept by the first-occurrence
filter scores no more than any row of the list with the same student id. -/
theorem keepFirstAux_min_score (l : List Row) (hsorted : l.Pairwise rowLE)
    (seen : List String) (r : Row) (hr : r ∈ keepFirstAux seen l)
    (q : Row) (hq : q ∈ l) (hid : q.student_id = r.student_id) :
    r.score ≤ q.score := by
  induction l generalizing seen with
  | nil => cases hr
  | cons a t ih =>
    obtain ⟨hhead, htail⟩ := List.pairwise_cons.mp hsorted
    by_cases ha : a.student_id ∈ seen
    · simp only [keepFirstAux, if_pos ha] at hr
      rcases List.mem_cons.mp hq with rfl | hq'
      · have hnot := keepFirstAux_id_not_seen seen t r hr
        exact absurd (hid ▸ ha) hnot
      · exact ih htail seen hr hq'
    · simp only [keepFirstAux, if_neg ha] at hr
      rcases List.mem_cons.mp hr with rfl | hr'
      · rcases List.mem_cons.mp hq with rfl | hq'
        · exact le_refl _
        · exact hhead q hq'
      · rcases List.mem_cons.mp hq with rfl | hq'
        · have hnot := keepFirstAux_id_not_seen _ _ _ hr'
          have : r.student_id ∈ q.student_id :: seen := by
            rw [← hid]
            exact List.mem_cons_self _ _
          exact absurd this hnot
        · exact ih htail _ hr' hq'

/-- The first-occurrence filter keeps at most one row per student id. -/
theorem keepFirstAux_nodup_ids (seen : List String) (l : List Row) :
    (keepFirstAux seen l).Pairwise fun a b => a.student_id ≠ b.student_id := by
  induction l generalizing seen with
  | nil => exact List.Pairwise.nil
  | cons a t ih =>
    by_cases ha : a.student_id ∈ seen
    · simp only [keepFirstAux, if_pos ha]
      exact ih seen
    · simp only [keepFirstAux, if_neg ha]
      refine List.pairwise_cons.mpr ⟨?_, ih _⟩
      intro b hb heq
      have hnot := keepFirstAux_id_not_seen _ _ _ hb
      have : b.student_id ∈ a.student_id :: seen := by
        rw [← heq]
        exact List.mem_cons_self _ _
      exact hnot this

/-- C9: for every student id present in a successful summary, the histogram
keeps exactly a row of that student taken from the CSV batch whose score is
minimal among that student's rows — the keep-first deduplication runs after
the ascending sort, so the histogram counts each student's lowest score. -/
theorem histogram_keeps_min_score_row (archives : List Archive)
    (out : SummaryOutput) (h : summary archives = Except.ok out) (s : String)
    (hs : ∃ q ∈ out.csvRows, q.1.student_id = s) :
    out.histRows.Pairwise (fun a b => a.student_id ≠ b.student_id) ∧
    ∃ r ∈ out.histRows, r.student_id = s ∧ (∃ b, (r, b) ∈ out.csvRows) ∧
      ∀ q ∈ out.csvRows, q.1.student_id = s → r.score ≤ q.1.score := by
  obtain ⟨m, _, hcsv, hhist⟩ := summary_eq_ok archives out h
  refine ⟨by rw [hhist]; exact keepFirstAux_nodup_ids _ _, ?_⟩
  obtain ⟨qb, hqb, hqs⟩ := hs
  rw [hcsv] at hqb
  obtain ⟨q', hq', hq'eq⟩ := List.mem_map.mp hqb
  have hq's : q'.student_id = s := by rw [← hq'eq] at hqs; exact hqs
  obtain ⟨r, hrkept, hrs⟩ := keepFirstAux_exists []
    (sortByScore (rowFactory (extractResults archives) m)) s
    (List.not_mem_nil s) ⟨q', hq', hq's⟩
  refine ⟨r, ?_, hrs, ?_, ?_⟩
  · rw [hhist]
    exact hrkept
  · refine ⟨decide (1 < List.countP (fun q => decide (q.student_id = r.student_id))
        (sortByScore (rowFactory (extractResults archives) m))), ?_⟩
    rw [hcsv]
    exact List.mem_map_of_mem _ (keepFirstAux_subset _ _ _ hrkept)
  · intro q hq hqs2
    rw [hcsv] at hq
    obtain ⟨q2, hq2, hq2eq⟩ := List.mem_map.mp hq
    have hq2s : q2.student_id = r.student_id := by
      rw [← hq2eq] at hqs2
      exact hqs2.trans hrs.symm
    have hsorted : (sortByScore (rowFactory (extractResults archives) m)).Pairwise rowLE :=
      List.sorted_insertionSort rowLE _
    have hle := keepFirstAux_min_score _ hsorted _ r hrkept q2 hq2 hq2s
    rw [← hq2eq]
    exact hle

/-- C9 witness: the same student at scores 9 and 7 — the histogram keeps the
score-7 row. -/
theorem histogram_keeps_min_score_row_witness :
    List.Pairwise (fun a b : Row => a.student_id ≠ b.student_id)
      [(⟨"alice", "An", "Al", 7, 10, "results_b.tar.xz"⟩ : Row)] ∧
    ∃ r ∈ [(⟨"alice", "An", "Al", 7, 10, "results_b.tar.xz"⟩ : Row)],
      r.student_id = "alice" ∧
      (∃ b, (r, b) ∈
        [((⟨"alice", "An", "Al", 7, 10, "results_b.tar.xz"⟩ : Row), true),
         ((⟨"alice", "An", "Al", 9, 10, "results_a.tar.xz"⟩ : Row), true)]) ∧
      ∀ q ∈ [((⟨"alice", "An", "Al", 7, 10, "results_b.tar.xz"⟩ : Row), true),
             ((⟨"alice", "An", "Al", 9, 10, "results_a.tar.xz"⟩ : Row), true)],
        q.1.student_id = "alice" → r.score ≤ q.1.score :=
  histogram_keeps_min_score_row
    [⟨"results_a.tar.xz", some ⟨⟨9, 10⟩, [⟨"alice", "An", "Al"⟩]⟩⟩,
     ⟨"results_b.tar.xz", some ⟨⟨7, 10⟩, [⟨"alice", "An", "Al"⟩]⟩⟩]
    ⟨[(⟨"alice", "An", "Al", 7, 10, "results_b.tar.xz"⟩, true),
      (⟨"alice", "An", "Al", 9, 10, "results_a.tar.xz"⟩, true)],
     [⟨"alice", "An", "Al", 7, 10, "results_b.tar.xz"⟩]⟩
    (by rfl) "alice" (by decide)

/-! ## Claims about the `test` subcommand -/

/-- The accumulator never exceeds a left fold of `max`. -/
theorem le_foldl_max (ns : List ℕ) (a : ℕ) : a ≤ ns.foldl max a := by
  induction ns generalizing a with
  | nil => exact le_refl a
  | cons x xs ih => exact le_trans (le_max_left a x) (ih (max a x))

/-- No list element exceeds a left fold of `max` over the list. -/
theorem mem_le_foldl_max (ns : List ℕ) (a x : ℕ) (hx : x ∈ ns) :
    x ≤ ns.foldl max a := by
  induction ns generalizing a with
  | nil => cases hx
  | cons y ys ih =>
    rcases List.mem_cons.mp hx with rfl | h
    · exact le_trans (le_max_right a x) (le_foldl_max ys _)
    · exact ih (max a y) h

/-- A left fold of `max` is the accumulator or one of the list elements. -/
theorem foldl_max_mem (ns : List ℕ) (a : ℕ) :
    ns.foldl max a = a ∨ ns.foldl max a ∈ ns := by
  induction ns generalizing a with
  | nil => exact Or.inl rfl
  | cons x xs ih =>
    rcases ih (max a x) with h | h
    · rcases max_cases a x with ⟨he, _⟩ | ⟨he, _⟩
      · exact Or.inl (h.trans he)
      · exact Or.inr (List.mem_cons.mpr (Or.inl (h.trans he)))
    · exact Or.inr (List.mem_cons_of_mem _ h)

/-- C6: a single notebook file yields exactly that one container run, with
no recursive search; a directory yields exactly the `*.ipynb` files under it
whose path contains no `.ipynb_checkpoints` segment. -/
theorem test_notebook_discovery (p : FsPath) (files : List FsPath) :
    notebooksOf (.file p) = [p] ∧
    ∀ q : FsPath, q ∈ notebooksOf (.dir files) ↔
      q ∈ files ∧ isIpynbName (q.getLastD "") = true ∧ ".ipynb_checkpoints" ∉ q := by
  refine ⟨rfl, fun q => ?_⟩
  simp only [notebooksOf, List.mem_filter, decide_eq_true_eq]
  tauto

/-- C7: over at least one discovered notebook, `test` returns the maximum of
the exit codes of the individual container runs — so any single non-zero
exit code forces a non-zero overall result. -/
theorem test_exit_code_is_max (runExit : FsPath → ℕ) (arg : NotebookArg)
    (h : notebooksOf arg ≠ []) :
    ∃ m, test runExit arg = some m ∧
      (∀ p ∈ notebooksOf arg, runExit p ≤ m) ∧
      (∃ p ∈ notebooksOf arg, runExit p = m) := by
  obtain ⟨n, ns, hd⟩ : ∃ n ns, notebooksOf arg = n :: ns := by
    cases hnb : notebooksOf arg with
    | nil => exact absurd hnb h
    | cons n ns => exact ⟨n, ns, rfl⟩
  have htest : test runExit arg =
      some (ns.foldl (fun acc p => max acc (runExit p)) (runExit n)) := by
    unfold test
    rw [hd]
  rw [hd, htest]
  refine ⟨(ns.map runExit).foldl max (runExit n), ?_, ?_, ?_⟩
  · rw [List.foldl_map]
  · intro p hp
    rcases List.mem_cons.mp hp with rfl | hp'
    · exact le_foldl_max _ _
    · exact mem_le_foldl_max _ _ _ (List.mem_map_of_mem runExit hp')
  · rcases foldl_max_mem (ns.map runExit) (runExit n) with h' | h'
    · exact ⟨n, List.mem_cons_self _ _, h'.symm⟩
    · obtain ⟨q, hq, hqe⟩ := List.mem_map.mp h'
      exact ⟨q, List.mem_cons_of_mem _ hq, hqe⟩

/-- C7 witness: two notebooks with exit codes 1 and 2 give overall 2. -/
theorem test_exit_code_is_max_witness :
    ∃ m, test (fun p => p.length) (.dir [["a.ipynb"], ["b", "c.ipynb"]]) = some m ∧
      (∀ p ∈ notebooksOf (.dir [["a.ipynb"], ["b", "c.ipynb"]]),
        (fun p : FsPath => p.length) p ≤ m) ∧
      (∃ p ∈ notebooksOf (.dir [["a.ipynb"], ["b", "c.ipynb"]]),
        (fun p : FsPath => p.length) p = m) :=
  test_exit_code_is_max (fun p => p.length)
    (.dir [["a.ipynb"], ["b", "c.ipynb"]]) (by decide)

/-- C10: when the checkpoint-exclusion filter leaves no notebook under the
given directory, `reduce(max, ...)` is applied to an empty sequence with no
initial value, so `test` raises an error instead of returning an exit
status. -/
theorem test_errors_without_notebooks (runExit : FsPath → ℕ)
    (files : List FsPath) (h : notebooksOf (.dir files) = []) :
    test runExit (.dir files) = none := by
  unfold test
  rw [h]

/-- C10 witness: the only `.ipynb` file sits inside `.ipynb_checkpoints`. -/
theorem test_errors_without_notebooks_witness :
    test (fun _ => 0) (.dir [[".ipynb_checkpoints", "x.ipynb"], ["notes.txt"]]) = none :=
  test_errors_without_notebooks (fun _ => 0)
    [[".ipynb_checkpoints", "x.ipynb"], ["notes.txt"]] (by decide)

end Autograde
